import Mathlib

/-!
Shallow embedding of the bulk-import job engine of the Brevo console
(src/src/contexts/JobContext.tsx).  The published job map and the
jobControlRefs side table are modelled as association lists with unique
string keys (JavaScript records cannot hold duplicate keys); the helpers
getk, setk and delk mirror record lookup, spread-update and delete.
Asynchronous sleeps carry no state, so they vanish; the submission loop
is embedded as a step function per iteration (loopIter) plus a recursion
over the contact batch (runLoop).  JSON parse/stringify of provider
payloads is abstracted as a Codec parameter, and the outcome of one
fetch to the proxy as a FetchResult.
-/

namespace Brevo

/-- Status of an import job, from the Job interface in JobContext. -/
inductive JStatus
| running
| paused
| completed
| cancelled
deriving DecidableEq, Repr

/-- Outcome tag of a single contact import, from the ImportResult interface. -/
inductive RStatus
| success
| failed
deriving DecidableEq, Repr

/-- One per-contact outcome entry, from the ImportResult interface. -/
structure ImportResult where
  index : Nat
  email : String
  status : RStatus
  data : String
deriving DecidableEq, Repr

/-- A bulk-import job, from the Job interface.  The JavaScript number
progress is modelled as a rational. -/
structure Job where
  id : String
  accountId : String
  listId : String
  listName : String
  status : JStatus
  progress : ℚ
  results : List ImportResult
  totalContacts : Nat
  elapsedTime : Nat
  delay : Nat
deriving DecidableEq, Repr

/-- The control flag pair stored in jobControlRefs for a live loop. -/
structure Controls where
  isPaused : Bool
  isCancelled : Bool
deriving DecidableEq, Repr

/-- A provider account as read by startJob (only id and apiKey are used). -/
structure Account where
  id : String
  apiKey : String
deriving DecidableEq, Repr

/-- A parsed contact, from the inline parsing in startJob. -/
structure Contact where
  email : String
  firstName : String
  lastName : String
deriving DecidableEq, Repr

/-- Record lookup, modelling jobs[k] and jobControlRefs.current[k]. -/
def getk {α : Type} : List (String × α) → String → Option α
  | [], _ => none
  | (k1, v) :: t, k => if k1 = k then some v else getk t k

/-- Record update, modelling the object spread that sets key k to v
(replaces the existing entry in place, else appends a new one). -/
def setk {α : Type} : List (String × α) → String → α → List (String × α)
  | [], k, v => [(k, v)]
  | (k1, w) :: t, k, v => if k1 = k then (k, v) :: t else (k1, w) :: setk t k v

/-- Record key deletion, modelling the delete operator. -/
def delk {α : Type} : List (String × α) → String → List (String × α)
  | [], _ => []
  | (k1, w) :: t, k => if k1 = k then delk t k else (k1, w) :: delk t k

/-- The whole mutable state of the job engine: the published job record
(jobs) and the control-flag side table (jobControlRefs.current). -/
structure EngineState where
  jobs : List (String × Job)
  flags : List (String × Controls)
deriving DecidableEq, Repr

/-- The timer effect (lines 46-62): every second, each job whose status
is running gets elapsedTime incremented by one; other jobs are kept as
they are.  The hasChanged bookkeeping in the source only decides whether
the same object is returned and never changes the content. -/
def tick (st : EngineState) : EngineState :=
  { st with jobs := st.jobs.map (fun p =>
      if p.2.status = JStatus.running then
        (p.1, { p.2 with elapsedTime := p.2.elapsedTime + 1 })
      else p) }

/-- removeJob (lines 65-72): delete the job from the published record and
delete its control flags. -/
def removeJob (jobId : String) (st : EngineState) : EngineState :=
  { jobs := delk st.jobs jobId, flags := delk st.flags jobId }

/-- updateJobStatus (lines 74-86): set the status of an existing job when
it actually changes, forcing progress to 100 when completing. -/
def updateJobStatus (jobId : String) (status : JStatus) (st : EngineState) : EngineState :=
  match getk st.jobs jobId with
  | some currentJob =>
    if currentJob.status ≠ status then
      let progress := if status = JStatus.completed then (100 : ℚ) else currentJob.progress
      { st with jobs := setk st.jobs jobId { currentJob with status := status, progress := progress } }
    else st
  | none => st

/-- pauseJob (lines 267-273): when the control flags exist, set isPaused
and publish status paused. -/
def pauseJob (jobId : String) (st : EngineState) : EngineState :=
  match getk st.flags jobId with
  | some c =>
    updateJobStatus jobId JStatus.paused
      { st with flags := setk st.flags jobId { c with isPaused := true } }
  | none => st

/-- resumeJob (lines 274-280): when the control flags exist, clear
isPaused and publish status running. -/
def resumeJob (jobId : String) (st : EngineState) : EngineState :=
  match getk st.flags jobId with
  | some c =>
    updateJobStatus jobId JStatus.running
      { st with flags := setk st.flags jobId { c with isPaused := false } }
  | none => st

/-- cancelJob (lines 283-289): when the control flags exist, set only the
isCancelled flag; the loop performs every state update and cleanup. -/
def cancelJob (jobId : String) (st : EngineState) : EngineState :=
  match getk st.flags jobId with
  | some c =>
    { st with flags := setk st.flags jobId { c with isCancelled := true } }
  | none => st

/-- Character-level split, the semantics of the JavaScript
String.prototype.split with a one-character separator (both split calls
in the source use "\\n" and ","): always returns at least one piece and
keeps empty pieces. -/
def splitOnChar (c : Char) : List Char → List (List Char)
  | [] => [[]]
  | a :: t =>
    match splitOnChar c t with
    | [] => [[]]
    | cur :: rest => if a = c then [] :: cur :: rest else (a :: cur) :: rest

/-- Whitespace recognizer for trim (space, tab, newline, carriage
return). -/
def isWsChar (c : Char) : Bool := c = ' ' || c = '\t' || c = '\n' || c = '\r'

/-- Character-level trim: drop whitespace from both ends, the semantics
of the JavaScript String.prototype.trim. -/
def trimChars (l : List Char) : List Char :=
  ((l.dropWhile isWsChar).reverse.dropWhile isWsChar).reverse

/-- JavaScript split on a one-character separator, on strings. -/
def jsSplit (sep : Char) (s : String) : List String :=
  (splitOnChar sep s.data).map List.asString

/-- JavaScript trim, on strings. -/
def jsTrim (s : String) : String := (trimChars s.data).asString

/-- Parsing of a single line (lines 100-107): split on comma, trim each
field; missing firstName or lastName fields default to the empty string. -/
def parseLine (line : String) : Contact :=
  let parts := jsSplit ',' line
  { email := jsTrim ((parts.get? 0).getD ""),
    firstName := jsTrim ((parts.get? 1).getD ""),
    lastName := jsTrim ((parts.get? 2).getD "") }

/-- Parsing of the raw import text (lines 96-108): split on newlines,
trim lines, drop empty lines, parse each line, drop contacts whose email
is empty (a falsy string). -/
def parseContacts (importData : String) : List Contact :=
  ((((jsSplit '\n' importData).map jsTrim).filter
      (fun line => line != "")).map parseLine).filter
    (fun contact => contact.email != "")

/-- Abstraction of JSON.parse / JSON.stringify on provider payloads.
parseOk says whether JSON.parse succeeds on a response text; parsed is
the pretty serialization of the parsed value; wrapRaw is the
serialization of the rawResponse/status wrapper object built when the
text is unparseable; wrapStatus is the serialization of the status-only
object built for an empty body. -/
structure Codec where
  parseOk : String → Bool
  parsed : String → String
  wrapRaw : String → Nat → String
  wrapStatus : Nat → String

/-- Outcome of one fetch to the backend proxy: a response with an HTTP
status and body text, or a network failure whose exception serializes to
the given string. -/
inductive FetchResult
| resp (status : Nat) (responseText : String)
| netfail (errStr : String)
deriving Repr

/-- The data value recorded for a response (lines 216-222): parse a
non-empty body, wrapping unparseable text together with the status;
an empty body stands for a status-only object. -/
def dataOf (cd : Codec) (status : Nat) (text : String) : String :=
  if text != "" then
    (if cd.parseOk text then cd.parsed text else cd.wrapRaw text status)
  else cd.wrapStatus status

/-- recordResult: the setJobs updater shared by the success and failure
branches (lines 226-236 and 240-251): when the job still exists, prepend
the new entry and recompute progress from the 0-based iteration index i. -/
def recordResult (jobId : String) (r : ImportResult) (i : Nat) (st : EngineState) : EngineState :=
  match getk st.jobs jobId with
  | some currentJob =>
    let updatedJob : Job :=
      { currentJob with
        results := r :: currentJob.results,
        progress := (((i : ℚ) + 1) / (currentJob.totalContacts : ℚ)) * 100 }
    { st with jobs := setk st.jobs jobId updatedJob }
  | none => st

/-- The submission of one contact (lines 205-252): statuses 201 and 204
are success, anything else is thrown and recorded as a failure; a network
failure is recorded as a failure with the serialized exception. -/
def submitStep (cd : Codec) (jobId : String) (i : Nat) (contact : Contact)
    (fr : FetchResult) (st : EngineState) : EngineState :=
  match fr with
  | FetchResult.resp status text =>
    let data := dataOf cd status text
    if status = 201 ∨ status = 204 then
      recordResult jobId { index := i + 1, email := contact.email, status := RStatus.success, data := data } i st
    else
      recordResult jobId { index := i + 1, email := contact.email, status := RStatus.failed, data := data } i st
  | FetchResult.netfail e =>
    recordResult jobId { index := i + 1, email := contact.email, status := RStatus.failed, data := e } i st

/-- The cleanup performed whenever the loop observes cancellation
(lines 159-164, 168-172, 178-183, 192-197): publish status cancelled and
delete the control flags. -/
def cancelCleanup (jobId : String) (st : EngineState) : EngineState :=
  let st1 := updateJobStatus jobId JStatus.cancelled st
  { st1 with flags := delk st1.flags jobId }

/-- One wake of the pause-wait (lines 167-175): when the captured control
object shows isCancelled the loop publishes cancelled, cleans up and
returns from the entire operation (some); otherwise it sleeps again
(none). -/
def pauseWaitStep (jobId : String) (controls : Controls) (st : EngineState) : Option EngineState :=
  if controls.isCancelled then some (cancelCleanup jobId st) else none

/-- The fresh cancellation re-check after the pause-wait and after the
inter-item delay (lines 178-183 and 192-197): a fresh lookup of the
flags, an absent entry reading as not cancelled. -/
def checkpointCancel (jobId : String) (st : EngineState) : Option EngineState :=
  if ((getk st.flags jobId).map Controls.isCancelled).getD false then
    some (cancelCleanup jobId st)
  else none

/-- Outcome of one loop iteration: continue with the next contact, break
out of the for loop, return from the whole operation, or keep polling the
pause-wait forever (which, absent outside intervention, never ends). -/
inductive IterOut
| next (st : EngineState)
| brk (st : EngineState)
| ret (st : EngineState)
| spin
deriving Repr

/-- One iteration of the for loop (lines 150-253) at 0-based index i:
capture the controls (silent break when absent), loop-top cancellation
check, pause-wait, post-pause re-check, inter-item delay (no state
effect), post-delay re-check, then the submission itself. -/
def loopIter (cd : Codec) (jobId : String) (i : Nat) (contact : Contact)
    (fr : FetchResult) (st : EngineState) : IterOut :=
  match getk st.flags jobId with
  | none => IterOut.brk st
  | some controls =>
    if controls.isCancelled then
      IterOut.brk (cancelCleanup jobId st)
    else if controls.isPaused then
      match pauseWaitStep jobId controls st with
      | some st1 => IterOut.ret st1
      | none => IterOut.spin
    else
      match checkpointCancel jobId st with
      | some st1 => IterOut.brk st1
      | none =>
        match checkpointCancel jobId st with
        | some st1 => IterOut.brk st1
        | none => IterOut.next (submitStep cd jobId i contact fr st)

/-- Outcome of the whole for loop: fell through (normally or via break),
returned from the operation inside the pause-wait, or never terminates. -/
inductive LoopOut
| fell (st : EngineState)
| returned (st : EngineState)
| diverged
deriving Repr

/-- The for loop over the remaining contacts, fed by the fetch outcome
fr i of each 0-based index i.  Absent outside intervention the control
flags never change mid-iteration, so each iteration is loopIter on the
current state. -/
def runLoop (cd : Codec) (jobId : String) (fr : Nat → FetchResult) :
    List Contact → Nat → EngineState → LoopOut
  | [], _, st => LoopOut.fell st
  | contact :: rest, i, st =>
    match loopIter cd jobId i contact (fr i) st with
    | IterOut.next st1 => runLoop cd jobId fr rest (i + 1) st1
    | IterOut.brk st1 => LoopOut.fell st1
    | IterOut.ret st1 => LoopOut.returned st1
    | IterOut.spin => LoopOut.diverged

/-- The completion block after the loop (lines 255-262): only when the
control flags still exist, publish completed (forcing progress 100) and
delete the flags. -/
def finishJob (jobId : String) (st : EngineState) : EngineState :=
  if (getk st.flags jobId).isSome then
    let st1 := updateJobStatus jobId JStatus.completed st
    { st1 with flags := delk st1.flags jobId }
  else st

/-- Removal of a previous job of the same account before a start
(lines 115-127): the first published job whose accountId matches is
removed together with its control flags (the explicit flag delete on
lines 120-122 is subsumed by removeJob); the sleep(50) yield carries no
state. -/
def discardExisting (accountId : String) (st : EngineState) : EngineState :=
  match st.jobs.find? (fun p => p.2.accountId == accountId) with
  | some p => removeJob p.1 st
  | none => st

/-- Lines 130-262 of startJob: install fresh control flags and the new
running job, run the submission loop, and run the completion block
(which the in-pause-wait return path skips).  The result is none only
when the loop polls a pause forever. -/
def installAndRun (cd : Codec) (accountId listId listName : String)
    (contacts : List Contact) (delay : Nat) (newId : String) (fr : Nat → FetchResult)
    (st : EngineState) : Option EngineState :=
  let st1 := discardExisting accountId st
  let st2 := { st1 with flags := setk st1.flags newId { isPaused := false, isCancelled := false } }
  let newJob : Job :=
    { id := newId, accountId := accountId, listId := listId, listName := listName,
      status := JStatus.running, progress := 0, results := [],
      totalContacts := contacts.length, elapsedTime := 0, delay := delay }
  let st3 := { st2 with jobs := setk st2.jobs newId newJob }
  match runLoop cd newId fr contacts 0 st3 with
  | LoopOut.fell st4 => some (finishJob newId st4)
  | LoopOut.returned st4 => some st4
  | LoopOut.diverged => none

/-- startJob (lines 89-264).  The fresh uuid is passed as newId and the
per-index fetch outcomes as fr.  A missing account or an empty parsed
batch only raises a toast and leaves the state untouched; otherwise any
previous job of the account is discarded and the new job installed and
run. -/
def startJob (cd : Codec) (accounts : List Account) (accountId listId listName : String)
    (importData : String) (delay : Nat) (newId : String) (fr : Nat → FetchResult)
    (st : EngineState) : Option EngineState :=
  match accounts.find? (fun acc => acc.id == accountId) with
  | none => some st
  | some _ =>
    let contacts := parseContacts importData
    if contacts.length = 0 then some st
    else installAndRun cd accountId listId listName contacts delay newId fr st

/-! ### Basic lemmas about the record helpers -/

theorem getk_setk_self {α : Type} (l : List (String × α)) (k : String) (v : α) :
    getk (setk l k v) k = some v := by
  induction l with
  | nil => simp [setk, getk]
  | cons p t ih =>
    obtain ⟨k1, w⟩ := p
    by_cases h : k1 = k
    · simp [setk, h, getk]
    · simp [setk, h, getk, ih]

theorem getk_setk_ne {α : Type} (l : List (String × α)) (k k2 : String) (v : α)
    (h : k2 ≠ k) : getk (setk l k v) k2 = getk l k2 := by
  have h2 : ¬k = k2 := fun e => h e.symm
  induction l with
  | nil => simp [setk, getk, h2]
  | cons p t ih =>
    obtain ⟨k1, w⟩ := p
    by_cases h1 : k1 = k
    · subst h1
      simp [setk, getk, h2]
    · simp [setk, h1, getk, ih]

theorem getk_delk_self {α : Type} (l : List (String × α)) (k : String) :
    getk (delk l k) k = none := by
  induction l with
  | nil => simp [delk, getk]
  | cons p t ih =>
    obtain ⟨k1, w⟩ := p
    by_cases h : k1 = k
    · simp [delk, h, ih]
    · simp [delk, h, getk, ih]

theorem getk_delk_ne {α : Type} (l : List (String × α)) (k k2 : String)
    (h : k2 ≠ k) : getk (delk l k) k2 = getk l k2 := by
  have h2 : ¬k = k2 := fun e => h e.symm
  induction l with
  | nil => simp [delk]
  | cons p t ih =>
    obtain ⟨k1, w⟩ := p
    by_cases h1 : k1 = k
    · subst h1
      simp [delk, getk, h2, ih]
    · simp [delk, h1, getk, ih]

theorem setk_setk {α : Type} (l : List (String × α)) (k : String) (v w : α) :
    setk (setk l k v) k w = setk l k w := by
  induction l with
  | nil => simp [setk]
  | cons p t ih =>
    obtain ⟨k1, u⟩ := p
    by_cases h : k1 = k
    · simp [setk, h]
    · simp [setk, h, ih]

theorem setk_self {α : Type} (l : List (String × α)) (k : String) (v : α)
    (h : getk l k = some v) : setk l k v = l := by
  induction l with
  | nil => simp [getk] at h
  | cons p t ih =>
    obtain ⟨k1, u⟩ := p
    by_cases h1 : k1 = k
    · subst h1
      simp [getk] at h
      simp [setk, h]
    · simp [getk, h1] at h
      simp [setk, h1, ih h]

theorem mem_of_getk {α : Type} (l : List (String × α)) (k : String) (v : α)
    (h : getk l k = some v) : (k, v) ∈ l := by
  induction l with
  | nil => simp [getk] at h
  | cons p t ih =>
    obtain ⟨k1, u⟩ := p
    by_cases h1 : k1 = k
    · subst h1
      simp [getk] at h
      simp [h]
    · simp [getk, h1] at h
      simp [ih h]

theorem getk_isSome_of_mem {α : Type} (l : List (String × α)) (k : String) (v : α)
    (h : (k, v) ∈ l) : (getk l k).isSome := by
  induction l with
  | nil => simp at h
  | cons p t ih =>
    obtain ⟨k1, u⟩ := p
    by_cases h1 : k1 = k
    · simp [getk, h1]
    · simp [getk, h1]
      rcases List.mem_cons.mp h with h2 | h2
      · exact absurd (congrArg Prod.fst h2).symm h1
      · exact ih h2

theorem setk_none {α : Type} (l : List (String × α)) (k : String) (v : α)
    (h : getk l k = none) : setk l k v = l ++ [(k, v)] := by
  induction l with
  | nil => simp [setk]
  | cons p t ih =>
    obtain ⟨k1, u⟩ := p
    by_cases h1 : k1 = k
    · subst h1
      simp [getk] at h
    · simp [getk, h1] at h
      simp [setk, h1, ih h]

theorem setk_append_single {α : Type} (l : List (String × α)) (k : String) (v w : α)
    (h : getk l k = none) : setk (l ++ [(k, v)]) k w = l ++ [(k, w)] := by
  induction l with
  | nil => simp [setk]
  | cons p t ih =>
    obtain ⟨k1, u⟩ := p
    by_cases h1 : k1 = k
    · subst h1
      simp [getk] at h
    · simp [getk, h1] at h
      simp [setk, h1, ih h]

theorem delk_eq_filter {α : Type} (l : List (String × α)) (k : String) :
    delk l k = l.filter (fun p => p.1 != k) := by
  induction l with
  | nil => simp [delk]
  | cons p t ih =>
    obtain ⟨k1, u⟩ := p
    by_cases h1 : k1 = k
    · simp [delk, h1, List.filter_cons, ih]
    · simp [delk, h1, List.filter_cons, bne_iff_ne, ih]

theorem find?_eq_head_filter {α : Type} (p : α → Bool) (l : List α) :
    l.find? p = (l.filter p).head? := by
  induction l with
  | nil => simp
  | cons a t ih =>
    by_cases h : p a
    · simp [List.find?_cons_of_pos, List.filter_cons_of_pos, h]
    · simp only [Bool.not_eq_true] at h
      rw [List.find?_cons_of_neg _ (by simp [h]), List.filter_cons_of_neg (by simp [h]), ih]

/-! ### Lemmas about one loop iteration -/

/-- The job value after one result entry is recorded: the entry is
prepended and progress recomputed from the 0-based index i. -/
def bumpJob (r : ImportResult) (i : Nat) (j : Job) : Job :=
  { j with results := r :: j.results,
           progress := (((i : ℚ) + 1) / (j.totalContacts : ℚ)) * 100 }

/-- The entry recorded for one contact, as a function of the fetch
outcome: statuses 201 and 204 give a success entry, any other response
and any network failure give a failed entry. -/
def resultEntry (cd : Codec) (i : Nat) (contact : Contact) (fr : FetchResult) : ImportResult :=
  match fr with
  | FetchResult.resp status text =>
    { index := i + 1, email := contact.email,
      status := if status = 201 ∨ status = 204 then RStatus.success else RStatus.failed,
      data := dataOf cd status text }
  | FetchResult.netfail e =>
    { index := i + 1, email := contact.email, status := RStatus.failed, data := e }

theorem resultEntry_index (cd : Codec) (i : Nat) (ct : Contact) (fr : FetchResult) :
    (resultEntry cd i ct fr).index = i + 1 := by
  cases fr <;> rfl

theorem resultEntry_email (cd : Codec) (i : Nat) (ct : Contact) (fr : FetchResult) :
    (resultEntry cd i ct fr).email = ct.email := by
  cases fr <;> rfl

theorem submitStep_eq (cd : Codec) (jid : String) (i : Nat) (ct : Contact)
    (fr : FetchResult) (st : EngineState) :
    submitStep cd jid i ct fr st = recordResult jid (resultEntry cd i ct fr) i st := by
  cases fr with
  | resp status text =>
    by_cases h : status = 201 ∨ status = 204 <;> simp [submitStep, resultEntry, h]
  | netfail e => simp [submitStep, resultEntry]

theorem recordResult_eq (jid : String) (r : ImportResult) (i : Nat) (st : EngineState)
    (j : Job) (hj : getk st.jobs jid = some j) :
    recordResult jid r i st = { st with jobs := setk st.jobs jid (bumpJob r i j) } := by
  simp [recordResult, hj, bumpJob]

theorem recordResult_flags (jid : String) (r : ImportResult) (i : Nat) (st : EngineState) :
    (recordResult jid r i st).flags = st.flags := by
  cases hj : getk st.jobs jid <;> simp [recordResult, hj]

theorem recordResult_frame (jid : String) (r : ImportResult) (i : Nat) (st : EngineState)
    (k : String) (hk : k ≠ jid) :
    getk (recordResult jid r i st).jobs k = getk st.jobs k := by
  cases hj : getk st.jobs jid <;> simp [recordResult, hj, getk_setk_ne _ _ _ _ hk]

theorem recordResult_lookup (jid : String) (r : ImportResult) (i : Nat) (st : EngineState)
    (j : Job) (hj : getk st.jobs jid = some j) :
    getk (recordResult jid r i st).jobs jid = some (bumpJob r i j) := by
  rw [recordResult_eq jid r i st j hj]
  exact getk_setk_self _ _ _

/-- With live flags in the not-paused, not-cancelled position, one loop
iteration just submits the contact and continues. -/
theorem loopIter_active (cd : Codec) (jid : String) (i : Nat) (ct : Contact)
    (fr : FetchResult) (st : EngineState)
    (hf : getk st.flags jid = some { isPaused := false, isCancelled := false }) :
    loopIter cd jid i ct fr st = IterOut.next (submitStep cd jid i ct fr st) := by
  simp [loopIter, hf, checkpointCancel]

/-- Full run of the loop from a live, unpaused, uncancelled state: it
falls through to the completion block, never touches the flags, rewrites
only the entry of its own job, preserves the identity fields and prepends
one result per contact, indices increasing with the batch position. -/
theorem runLoop_complete (cd : Codec) (jid : String) (fr : Nat → FetchResult) :
    ∀ (rest : List Contact) (i : Nat) (st : EngineState) (j : Job),
      getk st.flags jid = some { isPaused := false, isCancelled := false } →
      getk st.jobs jid = some j →
      ∃ st2 j2, runLoop cd jid fr rest i st = LoopOut.fell st2 ∧
        st2.flags = st.flags ∧
        st2.jobs = setk st.jobs jid j2 ∧
        j2.status = j.status ∧ j2.accountId = j.accountId ∧
        j2.totalContacts = j.totalContacts ∧ j2.id = j.id ∧
        j2.results.map ImportResult.index
          = (List.range' (i + 1) rest.length).reverse ++ j.results.map ImportResult.index ∧
        j2.results.length = rest.length + j.results.length := by
  intro rest
  induction rest with
  | nil =>
    intro i st j hf hj
    refine ⟨st, j, rfl, rfl, (setk_self _ _ _ hj).symm, rfl, rfl, rfl, rfl, ?_, ?_⟩
    · simp [List.range']
    · simp
  | cons ct rest ih =>
    intro i st j hf hj
    have hstep := loopIter_active cd jid i ct (fr i) st hf
    have hst1e : submitStep cd jid i ct (fr i) st
        = { st with jobs := setk st.jobs jid (bumpJob (resultEntry cd i ct (fr i)) i j) } := by
      rw [submitStep_eq, recordResult_eq jid _ i st j hj]
    have hf1 : getk ({ st with jobs := setk st.jobs jid (bumpJob (resultEntry cd i ct (fr i)) i j) } : EngineState).flags jid
        = some { isPaused := false, isCancelled := false } := hf
    have hjob1 : getk ({ st with jobs := setk st.jobs jid (bumpJob (resultEntry cd i ct (fr i)) i j) } : EngineState).jobs jid
        = some (bumpJob (resultEntry cd i ct (fr i)) i j) := getk_setk_self _ _ _
    obtain ⟨st2, j2, hrun, hfl, hjobs, hstat, hacc, htot, hid, hmap, hlen⟩ :=
      ih (i + 1) _ (bumpJob (resultEntry cd i ct (fr i)) i j) hf1 hjob1
    refine ⟨st2, j2, ?_, ?_, ?_, ?_, ?_, ?_, ?_, ?_, ?_⟩
    · simp only [runLoop, hstep]
      rw [hst1e]
      exact hrun
    · exact hfl
    · rw [hjobs]
      exact setk_setk _ _ _ _
    · exact hstat
    · exact hacc
    · exact htot
    · exact hid
    · rw [hmap]
      show _ = (List.range' (i + 1) (rest.length + 1)).reverse ++ _
      rw [List.range'_succ]
      simp [bumpJob, resultEntry_index]
    · rw [hlen]
      show _ = rest.length + 1 + j.results.length
      simp [bumpJob]
      omega


/-! ### Lemmas about updateJobStatus and the cancellation cleanup -/

/-- The job value published by updateJobStatus: unchanged when the status
is already current, else the new status with progress forced to 100 only
on completion. -/
def statusUpdate (s : JStatus) (j : Job) : Job :=
  if j.status = s then j
  else { j with status := s, progress := if s = JStatus.completed then (100 : ℚ) else j.progress }

theorem statusUpdate_not_completed (s : JStatus) (j : Job) (hs : s ≠ JStatus.completed) :
    statusUpdate s j = { j with status := s } := by
  unfold statusUpdate
  by_cases h : j.status = s
  · rw [if_pos h]
    cases j
    simp_all
  · simp [h, hs]

theorem updateJobStatus_lookup (jid : String) (s : JStatus) (st : EngineState) (j : Job)
    (hj : getk st.jobs jid = some j) :
    getk (updateJobStatus jid s st).jobs jid = some (statusUpdate s j) := by
  by_cases h : j.status = s
  · simp [updateJobStatus, hj, h, statusUpdate]
  · simp [updateJobStatus, hj, h, statusUpdate, getk_setk_self]

theorem updateJobStatus_frame (jid : String) (s : JStatus) (st : EngineState) (k : String)
    (hk : k ≠ jid) :
    getk (updateJobStatus jid s st).jobs k = getk st.jobs k := by
  cases hj : getk st.jobs jid with
  | none => simp [updateJobStatus, hj]
  | some j =>
    by_cases h : j.status = s <;> simp [updateJobStatus, hj, h, getk_setk_ne _ _ _ _ hk]

theorem updateJobStatus_flags (jid : String) (s : JStatus) (st : EngineState) :
    (updateJobStatus jid s st).flags = st.flags := by
  cases hj : getk st.jobs jid with
  | none => simp [updateJobStatus, hj]
  | some j => by_cases h : j.status = s <;> simp [updateJobStatus, hj, h]

theorem updateJobStatus_same (jid : String) (s : JStatus) (st : EngineState) (j : Job)
    (hj : getk st.jobs jid = some j) (h : j.status = s) :
    updateJobStatus jid s st = st := by
  simp [updateJobStatus, hj, h]

theorem updateJobStatus_none (jid : String) (s : JStatus) (st : EngineState)
    (hj : getk st.jobs jid = none) :
    updateJobStatus jid s st = st := by
  simp [updateJobStatus, hj]

theorem cancelCleanup_lookup (jid : String) (st : EngineState) (j : Job)
    (hj : getk st.jobs jid = some j) :
    getk (cancelCleanup jid st).jobs jid = some { j with status := JStatus.cancelled } := by
  unfold cancelCleanup
  have h := updateJobStatus_lookup jid JStatus.cancelled st j hj
  rw [statusUpdate_not_completed _ _ (by simp)] at h
  exact h

theorem cancelCleanup_flags (jid : String) (st : EngineState) :
    getk (cancelCleanup jid st).flags jid = none := by
  unfold cancelCleanup
  exact getk_delk_self _ _

theorem cancelCleanup_frame (jid : String) (st : EngineState) (k : String) (hk : k ≠ jid) :
    getk (cancelCleanup jid st).jobs k = getk st.jobs k ∧
    getk (cancelCleanup jid st).flags k = getk st.flags k := by
  constructor
  · exact updateJobStatus_frame jid JStatus.cancelled st k hk
  · show getk (delk (updateJobStatus jid JStatus.cancelled st).flags jid) k = _
    rw [getk_delk_ne _ _ _ hk, updateJobStatus_flags]


/-! ### List helpers for the parsing and tick claims -/

theorem filter_map_filter {α β : Type} (f : α → β) (p : α → Bool) (q : β → Bool)
    (l : List α) :
    ((l.filter p).map f).filter q = (l.filter (fun a => p a && q (f a))).map f := by
  induction l with
  | nil => rfl
  | cons a t ih =>
    by_cases hp : p a
    · by_cases hq : q (f a) <;> simp [List.filter_cons, hp, hq, ih]
    · simp [List.filter_cons, hp, ih]

theorem map_id_on {α : Type} (l : List α) (f : α → α) (h : ∀ a ∈ l, f a = a) :
    l.map f = l := by
  induction l with
  | nil => rfl
  | cons a t ih =>
    simp only [List.map_cons, h a (by simp)]
    rw [ih (fun b hb => h b (by simp [hb]))]

theorem getk_tick_map (l : List (String × Job)) (k : String) :
    getk (l.map (fun p =>
        if p.2.status = JStatus.running then
          (p.1, { p.2 with elapsedTime := p.2.elapsedTime + 1 })
        else p)) k
      = (getk l k).map (fun j =>
          if j.status = JStatus.running then { j with elapsedTime := j.elapsedTime + 1 }
          else j) := by
  induction l with
  | nil => rfl
  | cons p t ih =>
    obtain ⟨k1, j⟩ := p
    simp only [List.map_cons]
    by_cases h2 : j.status = JStatus.running
    · rw [if_pos h2]
      by_cases h1 : k1 = k <;> simp [getk, h1, h2, ih]
    · rw [if_neg h2]
      by_cases h1 : k1 = k <;> simp [getk, h1, h2, ih]


/-! ### Claim theorems: parsing, tick, cancel idempotence, pause frame -/

/-- C4: parsing keeps exactly the lines that are non-empty after trimming
and whose first comma-delimited field is non-empty after trimming, in
input order, and each contact carries the trimmed first, second and third
fields, the missing ones defaulting to the empty string.  Parsing is a
total function, so dropped lines raise no error. -/
theorem C4_parse_contract (raw : String) :
    parseContacts raw =
      (((jsSplit '\n' raw).map jsTrim).filter
          (fun line => line != "" && jsTrim (((jsSplit ',' line).get? 0).getD "") != "")).map parseLine
    ∧ ∀ line : String,
        parseLine line =
          { email := jsTrim (((jsSplit ',' line).get? 0).getD ""),
            firstName := jsTrim (((jsSplit ',' line).get? 1).getD ""),
            lastName := jsTrim (((jsSplit ',' line).get? 2).getD "") } := by
  constructor
  · show ((((jsSplit '\n' raw).map jsTrim).filter
        (fun line => line != "")).map parseLine).filter
        (fun contact => contact.email != "") = _
    rw [filter_map_filter]
    rfl
  · intro line
    rfl

/-- C8: one tick increments elapsedTime by exactly 1 for a running job,
leaves any non-running job unchanged, never touches the flags, and is the
identity on the whole state when no running job exists. -/
theorem C8_tick_frame (st : EngineState) (jid : String) (j : Job) :
    (getk st.jobs jid = some j →
      getk (tick st).jobs jid =
        some (if j.status = JStatus.running then { j with elapsedTime := j.elapsedTime + 1 }
              else j)) ∧
    ((∀ p ∈ st.jobs, p.2.status ≠ JStatus.running) → tick st = st) ∧
    (tick st).flags = st.flags := by
  refine ⟨?_, ?_, rfl⟩
  · intro hj
    show getk (st.jobs.map _) jid = _
    rw [getk_tick_map, hj]
    rfl
  · intro hall
    have hmap : st.jobs.map (fun p =>
        if p.2.status = JStatus.running then
          (p.1, { p.2 with elapsedTime := p.2.elapsedTime + 1 })
        else p) = st.jobs :=
      map_id_on _ _ (fun p hp => by rw [if_neg (hall p hp)])
    show ({ st with jobs := _ } : EngineState) = st
    rw [hmap]

/-- C9: cancelJob is idempotent: a second call on the same id changes
neither the control flags nor the published job record. -/
theorem C9_cancel_idem (st : EngineState) (jid : String) :
    cancelJob jid (cancelJob jid st) = cancelJob jid st := by
  cases hc : getk st.flags jid with
  | none => simp [cancelJob, hc]
  | some c =>
    have h1 : getk (setk st.flags jid { c with isCancelled := true }) jid
        = some { c with isCancelled := true } := getk_setk_self _ _ _
    simp [cancelJob, hc, h1, setk_setk]

/-- C10: with live control flags, pauseJob and resumeJob change only the
status field of their job in the published record (to paused and running)
and leave every other job alone; when the requested status is already
current the published record is left identical. -/
theorem C10_pause_resume_only_status (st : EngineState) (jid : String) (c : Controls)
    (j : Job) (hc : getk st.flags jid = some c) :
    (getk st.jobs jid = some j →
      getk (pauseJob jid st).jobs jid = some { j with status := JStatus.paused } ∧
      getk (resumeJob jid st).jobs jid = some { j with status := JStatus.running } ∧
      (j.status = JStatus.paused → (pauseJob jid st).jobs = st.jobs) ∧
      (j.status = JStatus.running → (resumeJob jid st).jobs = st.jobs)) ∧
    (∀ k, k ≠ jid →
      getk (pauseJob jid st).jobs k = getk st.jobs k ∧
      getk (resumeJob jid st).jobs k = getk st.jobs k) := by
  have hp : pauseJob jid st = updateJobStatus jid JStatus.paused
      { st with flags := setk st.flags jid { c with isPaused := true } } := by
    simp [pauseJob, hc]
  have hr : resumeJob jid st = updateJobStatus jid JStatus.running
      { st with flags := setk st.flags jid { c with isPaused := false } } := by
    simp [resumeJob, hc]
  have hsp : JStatus.paused ≠ JStatus.completed := by simp
  have hsr : JStatus.running ≠ JStatus.completed := by simp
  constructor
  · intro hj
    refine ⟨?_, ?_, ?_, ?_⟩
    · rw [hp]
      have h := updateJobStatus_lookup jid JStatus.paused
        { st with flags := setk st.flags jid { c with isPaused := true } } j hj
      rw [statusUpdate_not_completed _ _ hsp] at h
      exact h
    · rw [hr]
      have h := updateJobStatus_lookup jid JStatus.running
        { st with flags := setk st.flags jid { c with isPaused := false } } j hj
      rw [statusUpdate_not_completed _ _ hsr] at h
      exact h
    · intro hstat
      rw [hp, updateJobStatus_same jid JStatus.paused
        { st with flags := setk st.flags jid { c with isPaused := true } } j hj hstat]
    · intro hstat
      rw [hr, updateJobStatus_same jid JStatus.running
        { st with flags := setk st.flags jid { c with isPaused := false } } j hj hstat]
  · intro k hk
    constructor
    · rw [hp]
      exact updateJobStatus_frame jid JStatus.paused _ k hk
    · rw [hr]
      exact updateJobStatus_frame jid JStatus.running _ k hk


/-! ### Concrete fixtures used by the witnesses -/

/-- A trivial codec instance for concrete runs. -/
def cdW : Codec :=
  { parseOk := fun _ => true, parsed := fun t => t,
    wrapRaw := fun t _ => t, wrapStatus := fun _ => "" }

/-- A concrete running job. -/
def jW : Job :=
  { id := "J", accountId := "a", listId := "L", listName := "list",
    status := JStatus.running, progress := 0, results := [],
    totalContacts := 2, elapsedTime := 5, delay := 0 }

/-- State with the running job jW and live flags. -/
def stW8 : EngineState :=
  { jobs := [("J", jW)], flags := [("J", { isPaused := false, isCancelled := false })] }

/-- A paused variant of jW. -/
def jWp : Job := { jW with status := JStatus.paused }

/-- State whose only job is paused and whose flag table is empty. -/
def stW8p : EngineState := { jobs := [("J", jWp)], flags := [] }

theorem C8_tick_frame_witness :
    (getk (tick stW8).jobs "J" =
      some (if jW.status = JStatus.running then { jW with elapsedTime := jW.elapsedTime + 1 }
            else jW)) ∧
    tick stW8p = stW8p := by
  constructor
  · exact (C8_tick_frame stW8 "J" jW).1 (by decide)
  · exact (C8_tick_frame stW8p "J" jWp).2.1 (by decide)

theorem C10_pause_resume_only_status_witness :
    getk (pauseJob "J" stW8).jobs "J" = some { jW with status := JStatus.paused } ∧
    getk (resumeJob "J" stW8).jobs "J" = some { jW with status := JStatus.running } ∧
    (resumeJob "J" stW8).jobs = stW8.jobs := by
  have h := C10_pause_resume_only_status stW8 "J"
    { isPaused := false, isCancelled := false } jW (by decide)
  exact ⟨(h.1 (by decide)).1, (h.1 (by decide)).2.1, (h.1 (by decide)).2.2.2 (by decide)⟩


/-! ### Claim theorems: cancellation protocol, failure handling, orphaned loop -/

/-- C2: cancelJob on a job with live flags sets only isCancelled (jobs
untouched, other flag entries untouched); each loop checkpoint that
observes the flag (loop top, pause-wait, the two fresh re-checks)
publishes status cancelled through cancelCleanup and stops, the
pause-wait exiting the entire operation; cancelCleanup leaves progress
frozen (the published job is the old one with only status replaced, never
forced to 100) and deletes the control flags. -/
theorem C2_cancel_protocol (st : EngineState) (jid : String) (c : Controls) (j : Job)
    (cd : Codec) (i : Nat) (ct : Contact) (fr : FetchResult)
    (hc : getk st.flags jid = some c) :
    (cancelJob jid st).jobs = st.jobs ∧
    getk (cancelJob jid st).flags jid = some { c with isCancelled := true } ∧
    (∀ k, k ≠ jid → getk (cancelJob jid st).flags k = getk st.flags k) ∧
    (c.isCancelled = true →
      loopIter cd jid i ct fr st = IterOut.brk (cancelCleanup jid st)) ∧
    (c.isCancelled = true → pauseWaitStep jid c st = some (cancelCleanup jid st)) ∧
    (c.isCancelled = true → checkpointCancel jid st = some (cancelCleanup jid st)) ∧
    (getk st.jobs jid = some j →
      getk (cancelCleanup jid st).jobs jid = some { j with status := JStatus.cancelled }) ∧
    getk (cancelCleanup jid st).flags jid = none := by
  refine ⟨?_, ?_, ?_, ?_, ?_, ?_, ?_, ?_⟩
  · simp [cancelJob, hc]
  · simp [cancelJob, hc, getk_setk_self]
  · intro k hk
    simp [cancelJob, hc, getk_setk_ne _ _ _ _ hk]
  · intro hcc
    simp [loopIter, hc, hcc]
  · intro hcc
    simp [pauseWaitStep, hcc]
  · intro hcc
    simp [checkpointCancel, hc, hcc]
  · intro hj
    exact cancelCleanup_lookup jid st j hj
  · exact cancelCleanup_flags jid st

/-- C6: a provider outcome other than status 201 or 204, including a
network failure, makes the loop record one failed entry for that contact
(index i+1, its email, the serialized payload as data), leaves the job
status and every other job untouched, does not touch the flags, and
continues with the next contact instead of aborting. -/
theorem C6_failure_recorded (cd : Codec) (jid : String) (i : Nat) (ct : Contact)
    (st : EngineState) (j : Job) (fr : FetchResult)
    (hf : getk st.flags jid = some { isPaused := false, isCancelled := false })
    (hj : getk st.jobs jid = some j)
    (hfail : ∀ s t, fr = FetchResult.resp s t → s ≠ 201 ∧ s ≠ 204) :
    loopIter cd jid i ct fr st = IterOut.next (submitStep cd jid i ct fr st) ∧
    getk (submitStep cd jid i ct fr st).jobs jid =
      some (bumpJob (resultEntry cd i ct fr) i j) ∧
    (resultEntry cd i ct fr).status = RStatus.failed ∧
    (resultEntry cd i ct fr).index = i + 1 ∧
    (resultEntry cd i ct fr).email = ct.email ∧
    (resultEntry cd i ct fr).data =
      (match fr with
       | FetchResult.resp s t => dataOf cd s t
       | FetchResult.netfail e => e) ∧
    (bumpJob (resultEntry cd i ct fr) i j).status = j.status ∧
    (bumpJob (resultEntry cd i ct fr) i j).results.length = j.results.length + 1 ∧
    (∀ k, k ≠ jid → getk (submitStep cd jid i ct fr st).jobs k = getk st.jobs k) ∧
    (submitStep cd jid i ct fr st).flags = st.flags := by
  refine ⟨loopIter_active cd jid i ct fr st hf, ?_, ?_,
    resultEntry_index cd i ct fr, resultEntry_email cd i ct fr, ?_, rfl, ?_, ?_, ?_⟩
  · rw [submitStep_eq]
    exact recordResult_lookup jid _ i st j hj
  · cases fr with
    | resp s t =>
      obtain ⟨h1, h2⟩ := hfail s t rfl
      simp [resultEntry, h1, h2]
    | netfail e => rfl
  · cases fr <;> rfl
  · simp [bumpJob]
  · intro k hk
    rw [submitStep_eq]
    exact recordResult_frame jid _ i st k hk
  · rw [submitStep_eq]
    exact recordResult_flags jid _ i st

/-- C7: when the control flags of a job are gone, the loop breaks
silently at its next checkpoint with the state untouched, the completion
block publishes nothing, and the whole remaining loop leaves the state
exactly as it found it. -/
theorem C7_orphan_silent (cd : Codec) (jid : String) (i : Nat) (ct : Contact)
    (fr : FetchResult) (frs : Nat → FetchResult) (contacts : List Contact)
    (st : EngineState) (hf : getk st.flags jid = none) :
    loopIter cd jid i ct fr st = IterOut.brk st ∧
    finishJob jid st = st ∧
    runLoop cd jid frs contacts i st = LoopOut.fell st := by
  refine ⟨?_, ?_, ?_⟩
  · simp [loopIter, hf]
  · simp [finishJob, hf]
  · cases contacts with
    | nil => rfl
    | cons ct2 rest => simp [runLoop, loopIter, hf]

/-! ### Witnesses for C2, C6, C7 -/

/-- A concrete contact. -/
def ctW : Contact := { email := "x@y.com", firstName := "", lastName := "" }

/-- State whose job has live flags with isCancelled already set. -/
def stW2 : EngineState :=
  { jobs := [("J", jW)], flags := [("J", { isPaused := false, isCancelled := true })] }

theorem C2_cancel_protocol_witness :
    (cancelJob "J" stW2).jobs = stW2.jobs ∧
    getk (cancelJob "J" stW2).flags "J" = some { isPaused := false, isCancelled := true } ∧
    loopIter cdW "J" 0 ctW (FetchResult.resp 201 "") stW2
      = IterOut.brk (cancelCleanup "J" stW2) ∧
    pauseWaitStep "J" { isPaused := false, isCancelled := true } stW2
      = some (cancelCleanup "J" stW2) ∧
    checkpointCancel "J" stW2 = some (cancelCleanup "J" stW2) ∧
    getk (cancelCleanup "J" stW2).jobs "J" = some { jW with status := JStatus.cancelled } ∧
    getk (cancelCleanup "J" stW2).flags "J" = none := by
  have h := C2_cancel_protocol stW2 "J" { isPaused := false, isCancelled := true } jW
    cdW 0 ctW (FetchResult.resp 201 "") (by decide)
  exact ⟨h.1, h.2.1, h.2.2.2.1 rfl, h.2.2.2.2.1 rfl, h.2.2.2.2.2.1 rfl,
    h.2.2.2.2.2.2.1 (by decide), h.2.2.2.2.2.2.2⟩

theorem C6_failure_recorded_witness :
    loopIter cdW "J" 0 ctW (FetchResult.resp 500 "oops") stW8
      = IterOut.next (submitStep cdW "J" 0 ctW (FetchResult.resp 500 "oops") stW8) ∧
    getk (submitStep cdW "J" 0 ctW (FetchResult.resp 500 "oops") stW8).jobs "J"
      = some (bumpJob (resultEntry cdW 0 ctW (FetchResult.resp 500 "oops")) 0 jW) ∧
    (resultEntry cdW 0 ctW (FetchResult.resp 500 "oops")).status = RStatus.failed := by
  have h := C6_failure_recorded cdW "J" 0 ctW stW8 jW (FetchResult.resp 500 "oops")
    (by decide) (by decide)
    (by rintro s t h; cases h; exact ⟨by decide, by decide⟩)
  exact ⟨h.1, h.2.1, h.2.2.1⟩

theorem C7_orphan_silent_witness :
    loopIter cdW "J" 0 ctW (FetchResult.resp 201 "") stW8p = IterOut.brk stW8p ∧
    finishJob "J" stW8p = stW8p ∧
    runLoop cdW "J" (fun _ => FetchResult.resp 201 "") [ctW] 0 stW8p
      = LoopOut.fell stW8p := by
  exact C7_orphan_silent cdW "J" 0 ctW (FetchResult.resp 201 "")
    (fun _ => FetchResult.resp 201 "") [ctW] stW8p (by decide)


/-! ### Terminal statuses -/

/-- completed and cancelled are the terminal statuses. -/
abbrev terminal (s : JStatus) : Prop := s = JStatus.completed ∨ s = JStatus.cancelled

/-- Flag discipline: a published job in a terminal status has no control
flags.  Every code path entering a terminal status deletes the flags in
the same step, and flags are only ever created for a fresh running job. -/
abbrev FlagsInv (st : EngineState) : Prop :=
  ∀ p ∈ st.jobs, terminal p.2.status → getk st.flags p.1 = none

theorem getk_delk_none {α : Type} (l : List (String × α)) (k j : String)
    (h : getk l k = none) : getk (delk l j) k = none := by
  by_cases hkj : k = j
  · subst hkj
    exact getk_delk_self _ _
  · rw [getk_delk_ne _ _ _ hkj]
    exact h

theorem finishJob_flags (jobId : String) (st : EngineState) :
    getk (finishJob jobId st).flags jobId = none := by
  unfold finishJob
  by_cases h : (getk st.flags jobId).isSome
  · rw [if_pos h]
    exact getk_delk_self _ _
  · rw [if_neg h]
    simpa using h

theorem pauseJob_frame (jobId : String) (st : EngineState) (k : String) (hk : k ≠ jobId) :
    getk (pauseJob jobId st).jobs k = getk st.jobs k := by
  cases hc : getk st.flags jobId with
  | none => simp [pauseJob, hc]
  | some c =>
    simp only [pauseJob, hc]
    exact updateJobStatus_frame jobId JStatus.paused _ k hk

theorem resumeJob_frame (jobId : String) (st : EngineState) (k : String) (hk : k ≠ jobId) :
    getk (resumeJob jobId st).jobs k = getk st.jobs k := by
  cases hc : getk st.flags jobId with
  | none => simp [resumeJob, hc]
  | some c =>
    simp only [resumeJob, hc]
    exact updateJobStatus_frame jobId JStatus.running _ k hk

theorem cancelJob_jobs (jobId : String) (st : EngineState) :
    (cancelJob jobId st).jobs = st.jobs := by
  cases hc : getk st.flags jobId <;> simp [cancelJob, hc]

theorem finishJob_frame (jobId : String) (st : EngineState) (k : String) (hk : k ≠ jobId) :
    getk (finishJob jobId st).jobs k = getk st.jobs k := by
  unfold finishJob
  by_cases h : (getk st.flags jobId).isSome
  · rw [if_pos h]
    exact updateJobStatus_frame jobId JStatus.completed st k hk
  · rw [if_neg h]

/-- C5: under the flag discipline, a job whose published status is
completed or cancelled is left exactly as it is by pauseJob, resumeJob,
cancelJob, the tick, every loop checkpoint (which breaks silently) and
the completion block, whether they target this job or another one; and
the two code paths that enter a terminal status, cancelCleanup and
finishJob, both leave the job with no control flags. -/
theorem C5_terminal_stay (st : EngineState) (jid : String) (j : Job) (cd : Codec)
    (i : Nat) (ct : Contact) (fr : FetchResult)
    (hinv : FlagsInv st) (hj : getk st.jobs jid = some j) (hterm : terminal j.status) :
    pauseJob jid st = st ∧
    resumeJob jid st = st ∧
    cancelJob jid st = st ∧
    getk (tick st).jobs jid = some j ∧
    loopIter cd jid i ct fr st = IterOut.brk st ∧
    finishJob jid st = st ∧
    (∀ st2 : EngineState, getk (cancelCleanup jid st2).flags jid = none ∧
      getk (finishJob jid st2).flags jid = none) ∧
    (∀ k, k ≠ jid →
      getk (pauseJob k st).jobs jid = some j ∧
      getk (resumeJob k st).jobs jid = some j ∧
      getk (cancelJob k st).jobs jid = some j ∧
      getk (cancelCleanup k st).jobs jid = some j ∧
      getk (finishJob k st).jobs jid = some j) := by
  have hflags : getk st.flags jid = none :=
    hinv (jid, j) (mem_of_getk st.jobs jid j hj) hterm
  have hnr : j.status ≠ JStatus.running := by
    rcases hterm with h | h <;> simp [h]
  refine ⟨?_, ?_, ?_, ?_, ?_, ?_, ?_, ?_⟩
  · simp [pauseJob, hflags]
  · simp [resumeJob, hflags]
  · simp [cancelJob, hflags]
  · show getk (st.jobs.map _) jid = _
    rw [getk_tick_map, hj]
    simp [hnr]
  · simp [loopIter, hflags]
  · simp [finishJob, hflags]
  · intro st2
    exact ⟨cancelCleanup_flags jid st2, finishJob_flags jid st2⟩
  · intro k hk
    have hjk : jid ≠ k := fun e => hk e.symm
    refine ⟨?_, ?_, ?_, ?_, ?_⟩
    · rw [pauseJob_frame k st jid hjk]
      exact hj
    · rw [resumeJob_frame k st jid hjk]
      exact hj
    · rw [cancelJob_jobs k st]
      exact hj
    · rw [(cancelCleanup_frame k st jid hjk).1]
      exact hj
    · rw [finishJob_frame k st jid hjk]
      exact hj

/-- A completed variant of jW. -/
def jWc : Job := { jW with status := JStatus.completed, progress := 100 }

/-- State whose only job is completed, with no flags. -/
def stW5 : EngineState := { jobs := [("J", jWc)], flags := [] }

theorem C5_terminal_stay_witness :
    pauseJob "J" stW5 = stW5 ∧
    resumeJob "J" stW5 = stW5 ∧
    cancelJob "J" stW5 = stW5 ∧
    getk (tick stW5).jobs "J" = some jWc ∧
    loopIter cdW "J" 0 ctW (FetchResult.resp 201 "") stW5 = IterOut.brk stW5 ∧
    finishJob "J" stW5 = stW5 := by
  have h := C5_terminal_stay stW5 "J" jWc cdW 0 ctW (FetchResult.resp 201 "")
    (by decide) (by decide) (by decide)
  exact ⟨h.1, h.2.1, h.2.2.1, h.2.2.2.1, h.2.2.2.2.1, h.2.2.2.2.2.1⟩


/-! ### The full start operation -/

theorem updateJobStatus_jobs (jid : String) (s : JStatus) (st : EngineState) (j : Job)
    (hj : getk st.jobs jid = some j) (hne : j.status ≠ s) :
    (updateJobStatus jid s st).jobs
      = setk st.jobs jid
          { j with status := s,
                   progress := if s = JStatus.completed then (100 : ℚ) else j.progress } := by
  simp [updateJobStatus, hj, hne]

/-- Outcome of installAndRun from any state in which the new id is fresh:
the run reaches the completion block, the published record afterwards is
the discarded record with exactly the new job written at newId, that job
is completed at progress 100 with one result per contact whose indices
decrease from N to 1, and its control flags are gone. -/
theorem installAndRun_result (cd : Codec) (accountId listId listName : String)
    (contacts : List Contact) (delay : Nat) (newId : String) (fr : Nat → FetchResult)
    (st : EngineState)
    (hfj : getk st.jobs newId = none) (hff : getk st.flags newId = none) :
    ∃ st2 j2,
      installAndRun cd accountId listId listName contacts delay newId fr st = some st2 ∧
      st2.jobs = setk (discardExisting accountId st).jobs newId j2 ∧
      st2.flags = delk (setk (discardExisting accountId st).flags newId
        { isPaused := false, isCancelled := false }) newId ∧
      getk st2.jobs newId = some j2 ∧
      getk st2.flags newId = none ∧
      j2.status = JStatus.completed ∧
      j2.progress = 100 ∧
      j2.id = newId ∧ j2.accountId = accountId ∧
      j2.totalContacts = contacts.length ∧
      j2.results.length = contacts.length ∧
      j2.results.map ImportResult.index = (List.range' 1 contacts.length).reverse := by
  have h1j : getk (discardExisting accountId st).jobs newId = none := by
    unfold discardExisting
    cases st.jobs.find? (fun p => p.2.accountId == accountId) with
    | none => exact hfj
    | some p => exact getk_delk_none _ _ _ hfj
  obtain ⟨st4, j4, hrun, hfl, hjobs, hstat, haccf, htot, hid, hmap, hlen⟩ :=
    runLoop_complete cd newId fr contacts 0
      { jobs := setk (discardExisting accountId st).jobs newId
          { id := newId, accountId := accountId, listId := listId, listName := listName,
            status := JStatus.running, progress := 0, results := [],
            totalContacts := contacts.length, elapsedTime := 0, delay := delay },
        flags := setk (discardExisting accountId st).flags newId
          { isPaused := false, isCancelled := false } }
      { id := newId, accountId := accountId, listId := listId, listName := listName,
        status := JStatus.running, progress := 0, results := [],
        totalContacts := contacts.length, elapsedTime := 0, delay := delay }
      (getk_setk_self _ _ _) (getk_setk_self _ _ _)
  have heval : installAndRun cd accountId listId listName contacts delay newId fr st
      = some (finishJob newId st4) := by
    simp only [installAndRun]
    rw [hrun]
  have hflags4 : getk st4.flags newId = some { isPaused := false, isCancelled := false } := by
    rw [hfl]
    exact getk_setk_self _ _ _
  have hjob4 : getk st4.jobs newId = some j4 := by
    rw [hjobs]
    exact getk_setk_self _ _ _
  have hstat4 : j4.status ≠ JStatus.completed := by
    rw [hstat]
    simp
  have hfin : finishJob newId st4
      = { jobs := setk st4.jobs newId { j4 with status := JStatus.completed, progress := 100 },
          flags := delk st4.flags newId } := by
    rw [finishJob, hflags4]
    simp only [Option.isSome_some, if_true]
    rw [updateJobStatus_flags]
    rw [updateJobStatus_jobs newId JStatus.completed st4 j4 hjob4 hstat4]
    simp
  refine ⟨finishJob newId st4, { j4 with status := JStatus.completed, progress := 100 },
    heval, ?_, ?_, ?_, ?_, rfl, rfl, ?_, ?_, ?_, ?_, ?_⟩
  · rw [hfin]
    show setk st4.jobs newId _ = _
    rw [hjobs]
    rw [setk_setk, setk_setk]
  · rw [hfin]
    show delk st4.flags newId = _
    rw [hfl]
  · rw [hfin]
    show getk (setk st4.jobs newId _) newId = _
    exact getk_setk_self _ _ _
  · rw [hfin]
    show getk (delk st4.flags newId) newId = none
    exact getk_delk_self _ _
  · show j4.id = newId
    rw [hid]
  · show j4.accountId = accountId
    rw [haccf]
  · show j4.totalContacts = contacts.length
    rw [htot]
  · show j4.results.length = contacts.length
    rw [hlen]
    simp
  · show j4.results.map ImportResult.index = _
    rw [hmap]
    simp


/-- C1: a start with delay 0 over a non-empty parsed batch, with a fresh
id, an existing account and every submission succeeding (status 201 or
204), terminates with the published job completed at progress 100,
holding one result per contact with index set exactly N down to 1 (most
recent first), and with its control flags deleted. -/
theorem C1_success_run (cd : Codec) (accounts : List Account)
    (accountId listId listName importData : String) (newId : String)
    (fr : Nat → FetchResult) (st : EngineState)
    (hacct : (accounts.find? (fun acc => acc.id == accountId)).isSome)
    (hne : parseContacts importData ≠ [])
    (hsucc : ∀ k, ∃ t, fr k = FetchResult.resp 201 t ∨ fr k = FetchResult.resp 204 t)
    (hfj : getk st.jobs newId = none) (hff : getk st.flags newId = none) :
    ∃ st2 j2,
      startJob cd accounts accountId listId listName importData 0 newId fr st = some st2 ∧
      getk st2.jobs newId = some j2 ∧
      j2.status = JStatus.completed ∧
      j2.progress = 100 ∧
      j2.results.length = (parseContacts importData).length ∧
      j2.results.map ImportResult.index
        = (List.range' 1 (parseContacts importData).length).reverse ∧
      getk st2.flags newId = none := by
  obtain ⟨acc, hfind⟩ := Option.isSome_iff_exists.mp hacct
  obtain ⟨st2, j2, heval, _, _, hlook, hflag, hstatus, hprog, _, _, _, hlenr, hmapr⟩ :=
    installAndRun_result cd accountId listId listName (parseContacts importData) 0 newId
      fr st hfj hff
  refine ⟨st2, j2, ?_, hlook, hstatus, hprog, hlenr, hmapr, hflag⟩
  simp only [startJob, hfind]
  rw [if_neg (fun h => hne (List.length_eq_zero.mp h))]
  exact heval

/-- The account fixture. -/
def accW : Account := { id := "a", apiKey := "key" }

theorem C1_success_run_witness :
    ∃ st2 j2,
      startJob cdW [accW] "a" "L" "list" "x@y.com,A\nz@w.com" 0 "J1"
        (fun _ => FetchResult.resp 201 "") { jobs := [], flags := [] } = some st2 ∧
      getk st2.jobs "J1" = some j2 ∧
      j2.status = JStatus.completed ∧
      j2.progress = 100 ∧
      j2.results.length = (parseContacts "x@y.com,A\nz@w.com").length ∧
      j2.results.map ImportResult.index
        = (List.range' 1 (parseContacts "x@y.com,A\nz@w.com").length).reverse ∧
      getk st2.flags "J1" = none := by
  exact C1_success_run cdW [accW] "a" "L" "list" "x@y.com,A\nz@w.com" "J1"
    (fun _ => FetchResult.resp 201 "") { jobs := [], flags := [] }
    (by decide) (by decide) (fun k => ⟨"", Or.inl rfl⟩) (by decide) (by decide)


theorem getk_append_none {α : Type} (l1 l2 : List (String × α)) (k : String)
    (h : getk l1 k = none) : getk (l1 ++ l2) k = getk l2 k := by
  induction l1 with
  | nil => rfl
  | cons p t ih =>
    obtain ⟨k1, v⟩ := p
    by_cases hk : k1 = k
    · simp [getk, hk] at h
    · simp only [List.cons_append, getk, hk, if_neg hk]
      exact ih (by simpa [getk, hk] using h)

/-- C3 (amended): a successful start for an account that already has
exactly one job first removes that job and its control flags entirely,
and afterwards exactly one job exists for the account, carrying the new
id (distinct from the old one, the uuid being fresh) and the totalContacts
of the new batch — which may coincide with the old. -/
theorem C3_one_job_per_account (cd : Codec) (accounts : List Account)
    (accountId listId listName importData : String) (delay : Nat) (newId oldId : String)
    (oldJob : Job) (fr : Nat → FetchResult) (st : EngineState)
    (hacct : (accounts.find? (fun acc => acc.id == accountId)).isSome)
    (hne : parseContacts importData ≠ [])
    (hone : st.jobs.filter (fun p => p.2.accountId == accountId) = [(oldId, oldJob)])
    (hfj : getk st.jobs newId = none) (hff : getk st.flags newId = none) :
    ∃ st2 j2,
      startJob cd accounts accountId listId listName importData delay newId fr st
        = some st2 ∧
      newId ≠ oldId ∧
      getk st2.jobs oldId = none ∧
      getk st2.flags oldId = none ∧
      st2.jobs.filter (fun p => p.2.accountId == accountId) = [(newId, j2)] ∧
      j2.id = newId ∧
      j2.totalContacts = (parseContacts importData).length := by
  obtain ⟨acc, hfind⟩ := Option.isSome_iff_exists.mp hacct
  have hmem : (oldId, oldJob) ∈ st.jobs := by
    have h : (oldId, oldJob) ∈ st.jobs.filter (fun p => p.2.accountId == accountId) := by
      rw [hone]
      simp
    exact (List.mem_filter.mp h).1
  have hnewold : newId ≠ oldId := by
    intro e
    subst e
    have h := getk_isSome_of_mem st.jobs newId oldJob hmem
    rw [hfj] at h
    simp at h
  have holdnew : oldId ≠ newId := fun e => hnewold e.symm
  have hdisc : discardExisting accountId st = removeJob oldId st := by
    unfold discardExisting
    rw [find?_eq_head_filter, hone]
    rfl
  obtain ⟨st2, j2, heval, hjobs2, hflags2, _, _, _, _, hid2, hacc2, htot2, _, _⟩ :=
    installAndRun_result cd accountId listId listName (parseContacts importData) delay
      newId fr st hfj hff
  rw [hdisc] at hjobs2 hflags2
  have hfreshd : getk (delk st.jobs oldId) newId = none := getk_delk_none _ _ _ hfj
  have hjobs2a : st2.jobs = delk st.jobs oldId ++ [(newId, j2)] := by
    rw [hjobs2]
    exact setk_none _ _ _ hfreshd
  refine ⟨st2, j2, ?_, hnewold, ?_, ?_, ?_, hid2, htot2⟩
  · simp only [startJob, hfind]
    rw [if_neg (fun h => hne (List.length_eq_zero.mp h))]
    exact heval
  · rw [hjobs2a, getk_append_none _ _ _ (getk_delk_self _ _)]
    simp [getk, hnewold]
  · rw [hflags2]
    rw [getk_delk_ne _ _ _ holdnew, getk_setk_ne _ _ _ _ holdnew]
    exact getk_delk_self _ _
  · rw [hjobs2a, List.filter_append]
    have hright : List.filter (fun p => p.2.accountId == accountId) [(newId, j2)]
        = [(newId, j2)] := by
      simp [List.filter_cons, hacc2]
    have hleft : List.filter (fun p => p.2.accountId == accountId) (delk st.jobs oldId)
        = [] := by
      rw [List.filter_eq_nil_iff]
      intro a ha hpa
      rw [delk_eq_filter] at ha
      obtain ⟨hmem2, hne2⟩ := List.mem_filter.mp ha
      have : a ∈ st.jobs.filter (fun p => p.2.accountId == accountId) :=
        List.mem_filter.mpr ⟨hmem2, hpa⟩
      rw [hone] at this
      simp only [List.mem_singleton] at this
      rw [this] at hne2
      simp at hne2
    rw [hleft, hright]
    rfl


/-- The previous completed job of account a, with totalContacts 1. -/
def jC3old : Job :=
  { id := "J0", accountId := "a", listId := "L", listName := "list",
    status := JStatus.completed, progress := 100, results := [],
    totalContacts := 1, elapsedTime := 3, delay := 0 }

/-- State holding only the old job of account a, flags already gone. -/
def stC3 : EngineState := { jobs := [("J0", jC3old)], flags := [] }

/-- C3 as stated is false: restarting account a with a one-contact batch
succeeds, afterwards exactly one job exists for the account with the
fresh id J1, yet its totalContacts equals the old totalContacts 1 — it is
not distinct from the old value. -/
theorem C3_totalContacts_not_distinct :
    jC3old.totalContacts = 1 ∧
    ((startJob cdW [accW] "a" "L" "list" "x@y.com" 0 "J1"
        (fun _ => FetchResult.resp 201 "") stC3).map
      (fun st2 => (st2.jobs.filter (fun p => p.2.accountId == "a")).map
        (fun p => (p.1, p.2.totalContacts))))
      = some [("J1", 1)] := by
  exact ⟨rfl, by decide⟩

theorem C3_one_job_per_account_witness :
    ∃ st2 j2,
      startJob cdW [accW] "a" "L" "list" "x@y.com" 0 "J1"
        (fun _ => FetchResult.resp 201 "") stC3 = some st2 ∧
      "J1" ≠ "J0" ∧
      getk st2.jobs "J0" = none ∧
      getk st2.flags "J0" = none ∧
      st2.jobs.filter (fun p => p.2.accountId == "a") = [("J1", j2)] ∧
      j2.id = "J1" ∧
      j2.totalContacts = (parseContacts "x@y.com").length := by
  exact C3_one_job_per_account cdW [accW] "a" "L" "list" "x@y.com" 0 "J1" "J0" jC3old
    (fun _ => FetchResult.resp 201 "") stC3
    (by decide) (by decide) (by decide) (by decide) (by decide)

end Brevo
